import Mathlib

/-!
Shallow embedding of the reactivity engine in `src/reactive.js`.

The source is a single module with four pieces:

* a module-level slot `currentEffect` (the Tracking Context);
* a two-level dependency store `targetMap : WeakMap<target, Map<prop, Set<effect>>>`;
* `effect(callback)`: if `currentEffect` is null, set it to `callback`,
  invoke it, and afterwards (only on the normal path falling out of the
  `if`) reset `currentEffect = null`; if `currentEffect` is already set,
  the `if` body is skipped and `currentEffect = null` still runs;
* `track(target, prop)`: if `currentEffect` is non-null, insert it into
  the set for `(target, prop)`, creating the intermediate map/set if absent;
* `trigger(target, prop)`: look up the set for `(target, prop)` (creating
  nothing) and call every stored callback in order;
* `reactiveIt(object)`: a proxy whose `get` runs `track` then reads the
  underlying property, and whose `set` writes the underlying property
  first and then runs `trigger`.

Objects are identified by natural numbers (reference identity), properties
by natural numbers, callbacks by natural numbers resolved through an
environment `Env` mapping each callback id to its body.  Callback bodies
are deep-embedded as lists of statements; a body may read a property of a
handle (pushing the value it saw onto a ghost log, the way the consumer
callbacks in `src/main.js` consume the value they read), write a property
through a handle, throw, or call `effect` re-entrantly.  The interpreter
`exec` is fuel-indexed; exhausting fuel is reported as the distinguished
outcome `Err.fuelOut`, all other control flow is exactly the source's.
JavaScript exceptions unwind control but leave all shared state (the slot,
the store, the underlying object) as it was at the throw point, so the
interpreter returns the state together with an optional error instead of
discarding the state on failure.

A ghost trace (`events`) records each write, each callback invocation and
each read together with the value the read returned; it instruments the
observable behaviour without altering it.
-/

/-- A property value of the underlying object: JavaScript `undefined`,
a number, or a boolean (the shapes used by `src/main.js`). -/
inductive Value
  | undef
  | num (n : Int)
  | boolv (b : Bool)
deriving DecidableEq, Repr

/-- Trace events: a write of a value to `(object, property)`, an
invocation of a stored callback, and a read of `(object, property)`
returning the recorded value. -/
inductive Event
  | writeEv (o p : Nat) (v : Value)
  | invokeEv (c : Nat)
  | readEv (o p : Nat) (v : Value)
deriving DecidableEq, Repr

/-- Holds (as `true`) exactly on invocation events. -/
def eIsInvoke : Event → Bool
  | Event.invokeEv _ => true
  | _ => false

/-- Statements a callback body may perform. -/
inductive Stmt
  | readLog (o p : Nat)
  | setProp (o p : Nat) (v : Value)
  | throwErr (code : Nat)
  | callEffect (c : Nat)
deriving DecidableEq, Repr

/-- The environment resolving a callback id to its body (reference
identity of callbacks in the source becomes identity of ids). -/
abbrev Env := Nat → List Stmt

/-- The inner `Set` of callbacks for one property, in insertion order
(JavaScript `Set` iterates in insertion order and ignores re-insertion). -/
abbrev Deps := List Nat

/-- The per-object `Map<prop, Set<effect>>`. -/
abbrev PropMap := List (Nat × Deps)

/-- The `targetMap : WeakMap<target, Map<prop, Set<effect>>>`. -/
abbrev Store := List (Nat × PropMap)

/-- The underlying objects' own properties: later bindings shadow
earlier ones, so consing models assignment. -/
abbrev Heap := List ((Nat × Nat) × Value)

/-- The JavaScript `Set.add`: insert at the end unless already present. -/
def depsAdd (l : Deps) (c : Nat) : Deps :=
  if c ∈ l then l else l ++ [c]

/-- Insert `c` into the set for `p`, creating the set if absent
(the inner half of the source's `track`). -/
def propAdd : PropMap → Nat → Nat → PropMap
  | [], p, c => [(p, depsAdd [] c)]
  | (q, l) :: rest, p, c =>
      if q = p then (q, depsAdd l c) :: rest else (q, l) :: propAdd rest p c

/-- Insert `c` into the set for `(o, p)`, creating the intermediate
map and set if absent (the outer half of the source's `track`). -/
def storeAdd : Store → Nat → Nat → Nat → Store
  | [], o, p, c => [(o, propAdd [] p c)]
  | (m, pm) :: rest, o, p, c =>
      if m = o then (m, propAdd pm p c) :: rest else (m, pm) :: storeAdd rest o p c

/-- The JavaScript `Map.get` on the per-object map. -/
def propLookup : PropMap → Nat → Option Deps
  | [], _ => none
  | (q, l) :: rest, p => if q = p then some l else propLookup rest p

/-- The lookup `targetMap.get(target)` followed by `depsMap.get(prop)`: `none` when
either level is absent.  Pure lookup, creates nothing. -/
def storeLookup : Store → Nat → Nat → Option Deps
  | [], _, _ => none
  | (m, pm) :: rest, o, p => if m = o then propLookup pm p else storeLookup rest o p

/-- The deps recorded for `(o, p)`, defaulting to the empty set. -/
def depsOf (st : Store) (o p : Nat) : Deps :=
  (storeLookup st o p).getD []

/-- The read `target[prop]`: first (most recent) binding wins, absent properties
read as `undefined`. -/
def heapGet : Heap → Nat → Nat → Value
  | [], _, _ => Value.undef
  | ((o', p'), v) :: rest, o, p => if o' = o ∧ p' = p then v else heapGet rest o p

/-- The assignment `target[prop] = value`. -/
def heapSet (h : Heap) (o p : Nat) (v : Value) : Heap :=
  ((o, p), v) :: h

/-- The whole mutable state of the module: the underlying objects, the
dependency store, the `currentEffect` slot, the ghost event trace, and
the consumer-visible log of values read by `readLog` statements. -/
structure RState where
  heap : Heap
  store : Store
  currentEffect : Option Nat
  events : List Event
  log : List Value
deriving DecidableEq, Repr

/-- The empty initial state. -/
def initState : RState :=
  { heap := [], store := [], currentEffect := none, events := [], log := [] }

/-- The source's `track(target, prop)`: record `currentEffect` for
`(target, prop)` when the slot is occupied, otherwise do nothing. -/
def track (s : RState) (o p : Nat) : RState :=
  match s.currentEffect with
  | some c => { s with store := storeAdd s.store o p c }
  | none => s

/-- The state after the proxy `set` handler's assignment
`target[prop] = value` (before `trigger` runs). -/
def writeState (s : RState) (o p : Nat) (v : Value) : RState :=
  { s with heap := heapSet s.heap o p v, events := s.events ++ [Event.writeEv o p v] }

/-- Interpreter work items: a callback body, a single statement, the
`trigger` iteration over a captured list of callbacks, a call of the
source's `effect`, the proxy `set` handler, and the source's `trigger`. -/
inductive RTask
  | body (stmts : List Stmt)
  | stmt (st : Stmt)
  | runComps (cs : List Nat)
  | effectCall (c : Nat)
  | setTask (o p : Nat) (v : Value)
  | trigTask (o p : Nat)
deriving DecidableEq, Repr

/-- Errors an execution can end in: fuel exhaustion (a model artifact,
never source behaviour) or a thrown user error with its code. -/
inductive Err
  | fuelOut
  | userErr (code : Nat)
deriving DecidableEq, Repr

/-- The fuel-indexed interpreter.  Each case transcribes the source:

* `body` runs statements in order, stopping at the first error;
* `readLog o p` is the proxy `get` handler (`track` then read the
  underlying property) followed by the consumer pushing the value read;
* `setProp` is the proxy `set` handler, i.e. `setTask`: assign into the
  underlying object first, then `trigger`;
* `throwErr` raises;
* `callEffect` is a call of the source's `effect`, i.e. `effectCall`:
  when the slot is empty, fill it with the callback, invoke the body, and
  clear the slot only on the normal path (a throw skips the clearing,
  exactly as the source has no try/finally); when the slot is occupied
  the body of the `if` is skipped but the trailing `currentEffect = null`
  still runs, clearing the slot;
* `trigTask` looks the deps up without creating anything and iterates;
* `runComps` invokes each stored callback in order, an error stopping
  the iteration (none of the developments below mutate the set for the
  property being iterated during its own iteration). -/
def exec (env : Env) : Nat → RState → RTask → RState × Option Err
  | 0, s, _ => (s, some Err.fuelOut)
  | _ + 1, s, RTask.body [] => (s, none)
  | n + 1, s, RTask.body (st :: rest) =>
      match exec env n s (RTask.stmt st) with
      | (s2, none) => exec env n s2 (RTask.body rest)
      | (s2, some e) => (s2, some e)
  | _ + 1, s, RTask.stmt (Stmt.readLog o p) =>
      ({ track s o p with
          events := (track s o p).events ++ [Event.readEv o p (heapGet s.heap o p)],
          log := (track s o p).log ++ [heapGet s.heap o p] }, none)
  | n + 1, s, RTask.stmt (Stmt.setProp o p v) => exec env n s (RTask.setTask o p v)
  | _ + 1, s, RTask.stmt (Stmt.throwErr code) => (s, some (Err.userErr code))
  | n + 1, s, RTask.stmt (Stmt.callEffect c) => exec env n s (RTask.effectCall c)
  | n + 1, s, RTask.effectCall c =>
      match s.currentEffect with
      | none =>
          match exec env n
              { s with currentEffect := some c,
                       events := s.events ++ [Event.invokeEv c] }
              (RTask.body (env c)) with
          | (s2, none) => ({ s2 with currentEffect := none }, none)
          | (s2, some e) => (s2, some e)
      | some _ => ({ s with currentEffect := none }, none)
  | n + 1, s, RTask.setTask o p v => exec env n (writeState s o p v) (RTask.trigTask o p)
  | n + 1, s, RTask.trigTask o p =>
      match storeLookup s.store o p with
      | none => (s, none)
      | some deps => exec env n s (RTask.runComps deps)
  | _ + 1, s, RTask.runComps [] => (s, none)
  | n + 1, s, RTask.runComps (c :: rest) =>
      match exec env n
          { s with events := s.events ++ [Event.invokeEv c] }
          (RTask.body (env c)) with
      | (s2, none) => exec env n s2 (RTask.runComps rest)
      | (s2, some e) => (s2, some e)

/-- A statement that only reads (and logs) a property. -/
def IsReadLog : Stmt → Prop
  | Stmt.readLog _ _ => True
  | _ => False

/-- Every statement of every callback body only reads. -/
def ReadOnlyEnv (env : Env) : Prop :=
  ∀ c, ∀ st ∈ env c, IsReadLog st

/-- A statement that is not a re-entrant `effect` call. -/
def StmtNoReg : Stmt → Prop
  | Stmt.callEffect _ => False
  | _ => True

/-- No callback body contains a re-entrant `effect` call. -/
def NoRegEnv (env : Env) : Prop :=
  ∀ c, ∀ st ∈ env c, StmtNoReg st

/-- The side condition on a work item under which `exec` performs no
`effect` call of its own (its callees' bodies are governed by
`NoRegEnv`). -/
def TaskNoReg : RTask → Prop
  | RTask.body l => ∀ st ∈ l, StmtNoReg st
  | RTask.stmt st => StmtNoReg st
  | RTask.effectCall _ => False
  | _ => True

theorem heapGet_heapSet_self (h : Heap) (o p : Nat) (v : Value) :
    heapGet (heapSet h o p v) o p = v := by
  simp [heapGet, heapSet]

theorem writeState_store (s : RState) (o p : Nat) (v : Value) :
    (writeState s o p v).store = s.store := rfl

theorem track_of_none (s : RState) (o p : Nat) (h : s.currentEffect = none) :
    track s o p = s := by
  simp [track, h]

/-- The environment for the end-to-end counter scenario: callback `0`
reads property `0` (`count`) of object `0` and logs it. -/
def envC9 : Env := fun c => if c = 0 then [Stmt.readLog 0 0] else []

/-- Initial state for the counter scenario: one object with `count = 0`,
nothing registered yet. -/
def sC9 : RState :=
  { heap := [((0, 0), Value.num 0)], store := [], currentEffect := none,
    events := [], log := [] }

/-- An environment where every callback immediately throws error `7`. -/
def envThrow : Env := fun _ => [Stmt.throwErr 7]

/-- Callback `0` attempts a nested registration of callback `1`, which
would read property `0` of object `0`. -/
def env4 : Env :=
  fun c => if c = 0 then [Stmt.callEffect 1]
    else if c = 1 then [Stmt.readLog 0 0] else []

/-- Callback `0` registers callback `1` (which reads property `5`)
when re-run. -/
def env10 : Env :=
  fun c => if c = 0 then [Stmt.callEffect 1]
    else if c = 1 then [Stmt.readLog 0 5] else []

/-- A state whose store has callback `0` recorded for `(0, 0)` and whose
slot is empty, as after a completed registration of `env10` callback `0`. -/
def sC10 : RState :=
  { heap := [((0, 0), Value.num 0)], store := [(0, [(0, [0])])],
    currentEffect := none, events := [], log := [] }

/-- Two read-only callbacks on the same object: `0` reads property `0`
(`count`), `1` reads property `1` (`show`). -/
def envR : Env :=
  fun c => if c = 0 then [Stmt.readLog 0 0]
    else if c = 1 then [Stmt.readLog 0 1] else []

/-- Initial state with `count = 0` and `show = false`, nothing tracked. -/
def s00 : RState :=
  { heap := [((0, 0), Value.num 0), ((0, 1), Value.boolv false)], store := [],
    currentEffect := none, events := [], log := [] }

/-- Callback `2` throws error `7`; every other callback reads `(0, 0)`. -/
def envT : Env := fun c => if c = 2 then [Stmt.throwErr 7] else [Stmt.readLog 0 0]

/-- A state with callbacks `0`, `2`, `3` recorded for `(0, 0)`. -/
def sC8 : RState :=
  { heap := [((0, 0), Value.num 0)], store := [(0, [(0, [0, 2, 3])])],
    currentEffect := none, events := [], log := [] }

theorem readOnlyEnv_envR : ReadOnlyEnv envR := by
  intro c st hst
  by_cases h0 : c = 0
  · simp [envR, h0] at hst
    simp [hst, IsReadLog]
  · by_cases h1 : c = 1
    · simp [envR, h0, h1] at hst
      simp [hst, IsReadLog]
    · simp [envR, h0, h1] at hst

theorem readOnlyEnv_envC9 : ReadOnlyEnv envC9 := by
  intro c st hst
  by_cases h0 : c = 0
  · simp [envC9, h0] at hst
    simp [hst, IsReadLog]
  · simp [envC9, h0] at hst

/-- A re-entrant call of the source's `effect` (slot already occupied)
skips the whole `if` body — so the callback is never invoked — and then
runs the trailing `currentEffect = null`, clearing the slot. -/
theorem effectCall_reentrant (env : Env) (fuel : Nat) (s : RState) (c d : Nat)
    (h : s.currentEffect = some d) (hf : fuel ≠ 0) :
    exec env fuel s (RTask.effectCall c) = ({ s with currentEffect := none }, none) := by
  cases fuel with
  | zero => exact absurd rfl hf
  | succ n => simp [exec, h]

/-- Claim C9: wrapping `{count: 0}`, registering a computation that logs
`count`, then writing `1` and `2` yields the log `[0, 1, 2]`: the
registration runs the callback once on the initial value and each write
re-runs it exactly once with the freshly assigned value. -/
theorem c9_end_to_end_log :
    (exec envC9 40 sC9 (RTask.body
      [Stmt.callEffect 0, Stmt.setProp 0 0 (Value.num 1),
       Stmt.setProp 0 0 (Value.num 2)])).fst.log =
      [Value.num 0, Value.num 1, Value.num 2] ∧
    (exec envC9 40 sC9 (RTask.body
      [Stmt.callEffect 0, Stmt.setProp 0 0 (Value.num 1),
       Stmt.setProp 0 0 (Value.num 2)])).snd = none :=
  ⟨rfl, rfl⟩

/-- Claim C7: the lookup `trigger` performs never creates dependency
store entries: when nothing is recorded for `(o, p)`, triggering returns
the state unchanged (in particular the store is identical) and no
computation runs. -/
theorem c7_trigger_lookup_pure (env : Env) (fuel : Nat) (s : RState) (o p : Nat)
    (h : storeLookup s.store o p = none) (hf : fuel ≠ 0) :
    exec env fuel s (RTask.trigTask o p) = (s, none) := by
  cases fuel with
  | zero => exact absurd rfl hf
  | succ n => simp [exec, h]

theorem c7_witness :
    storeLookup initState.store 3 4 = none ∧
    exec envC9 5 initState (RTask.trigTask 3 4) = (initState, none) :=
  ⟨rfl, c7_trigger_lookup_pure envC9 5 initState 3 4 rfl (by decide)⟩

/-- Claim C2 fails on the code: `effect` has no try/finally, so when the
callback throws, the trailing `currentEffect = null` is skipped — after
the failed registration the slot still holds the failed callback. -/
theorem c2_counterexample :
    (exec envThrow 10 initState (RTask.effectCall 0)).snd = some (Err.userErr 7) ∧
    (exec envThrow 10 initState (RTask.effectCall 0)).fst.currentEffect = some 0 :=
  ⟨rfl, rfl⟩

/-- Claim C3 fails on the code: a re-entrant `effect` call is not a
no-op — the trailing `currentEffect = null` still executes, so the slot
no longer holds the outer computation afterwards. -/
theorem c3_counterexample :
    ({ initState with currentEffect := some 1 } : RState).currentEffect = some 1 ∧
    (exec envThrow 10 { initState with currentEffect := some 1 }
        (RTask.effectCall 0)).fst.currentEffect = none :=
  ⟨rfl, rfl⟩

/-- Claim C3 (amended): a re-entrant `effect` call raises no error, does
not invoke the callback and does not touch the store or heap, but it is
not a no-op: it clears the active tracking slot, so the outer computation
is no longer tracked afterwards.  The result is exactly the input state
with the slot emptied. -/
theorem c3_reentrant_clears_slot (env : Env) (fuel : Nat) (s : RState) (c d : Nat)
    (h : s.currentEffect = some d) (hf : fuel ≠ 0) :
    exec env fuel s (RTask.effectCall c) = ({ s with currentEffect := none }, none) :=
  effectCall_reentrant env fuel s c d h hf

theorem c3_witness :
    ({ initState with currentEffect := some 2 } : RState).currentEffect = some 2 ∧
    exec envR 7 { initState with currentEffect := some 2 } (RTask.effectCall 5) =
      ({ initState with currentEffect := none }, none) :=
  ⟨rfl, c3_reentrant_clears_slot envR 7 { initState with currentEffect := some 2 }
    5 2 rfl (by decide)⟩

/-- Claim C4 fails on the code: `effect` called from inside a running
computation does not invoke the inner callback at all — here the outer
callback `0` performs a nested registration of callback `1`, yet the
trace shows only the outer invocation and callback `1` never runs (no
invocation event, nothing logged). -/
theorem c4_counterexample :
    env4 0 = [Stmt.callEffect 1] ∧
    (exec env4 20 initState (RTask.effectCall 0)).fst.events = [Event.invokeEv 0] ∧
    Event.invokeEv 1 ∉ (exec env4 20 initState (RTask.effectCall 0)).fst.events ∧
    (exec env4 20 initState (RTask.effectCall 0)).fst.log = [] :=
  ⟨rfl, rfl, by decide, rfl⟩

/-- Claim C4 (amended): when `effect` is called while a computation is
already running, the inner callback is not invoked at all — the call
returns immediately without extending the event trace or the log and
without raising an error (its only action is clearing the slot). -/
theorem c4_reentrant_skips_callback (env : Env) (fuel : Nat) (s : RState) (c d : Nat)
    (h : s.currentEffect = some d) (hf : fuel ≠ 0) :
    (exec env fuel s (RTask.effectCall c)).fst.events = s.events ∧
    (exec env fuel s (RTask.effectCall c)).fst.log = s.log ∧
    (exec env fuel s (RTask.effectCall c)).snd = none := by
  rw [effectCall_reentrant env fuel s c d h hf]
  exact ⟨rfl, rfl, rfl⟩

theorem c4_witness :
    ({ s00 with currentEffect := some 3 } : RState).currentEffect = some 3 ∧
    (exec envR 9 { s00 with currentEffect := some 3 }
        (RTask.effectCall 1)).fst.events = s00.events ∧
    (exec envR 9 { s00 with currentEffect := some 3 }
        (RTask.effectCall 1)).fst.log = s00.log ∧
    (exec envR 9 { s00 with currentEffect := some 3 }
        (RTask.effectCall 1)).snd = none := by
  refine ⟨rfl, ?_⟩
  exact c4_reentrant_skips_callback envR 9 { s00 with currentEffect := some 3 }
    1 3 rfl (by decide)

theorem track_currentEffect (s : RState) (o p : Nat) :
    (track s o p).currentEffect = s.currentEffect := by
  cases h : s.currentEffect <;> simp [track, h]

theorem track_heap (s : RState) (o p : Nat) :
    (track s o p).heap = s.heap := by
  cases h : s.currentEffect <;> simp [track, h]

theorem noRegEnv_envThrow : NoRegEnv envThrow := by
  intro c st hst
  simp [envThrow] at hst
  simp [hst, StmtNoReg]

theorem noRegEnv_envR : NoRegEnv envR := by
  intro c st hst
  by_cases h0 : c = 0
  · simp [envR, h0] at hst
    simp [hst, StmtNoReg]
  · by_cases h1 : c = 1
    · simp [envR, h0, h1] at hst
      simp [hst, StmtNoReg]
    · simp [envR, h0, h1] at hst

/-- When no callback body (and no part of the work item itself) calls
`effect`, execution never touches the tracking slot, and with an empty
slot it never touches the dependency store either: `track` only records
when the slot is occupied, and nothing but `effect` occupies it. -/
theorem exec_noReg_invariant (env : Env) (hnr : NoRegEnv env) :
    ∀ fuel (t : RTask) (s s' : RState) (r : Option Err),
      TaskNoReg t → exec env fuel s t = (s', r) →
      s'.currentEffect = s.currentEffect ∧
      (s.currentEffect = none → s'.store = s.store) := by
  intro fuel
  induction fuel with
  | zero =>
    intro t s s' r _ hrun
    have hrun' : ((s, some Err.fuelOut) : RState × Option Err) = (s', r) := hrun
    injection hrun' with h1 h2
    subst h1
    exact ⟨rfl, fun _ => rfl⟩
  | succ n ih =>
    intro t s s' r hT hrun
    cases t with
    | body l =>
      cases l with
      | nil =>
        have hrun' : ((s, none) : RState × Option Err) = (s', r) := hrun
        injection hrun' with h1 h2
        subst h1
        exact ⟨rfl, fun _ => rfl⟩
      | cons st rest =>
        rcases h2 : exec env n s (RTask.stmt st) with ⟨s2, r2⟩
        have hstep := ih (RTask.stmt st) s s2 r2 (hT st (List.mem_cons_self st rest)) h2
        rw [exec, h2] at hrun
        cases r2 with
        | none =>
          have hrun' : exec env n s2 (RTask.body rest) = (s', r) := hrun
          have hrest := ih (RTask.body rest) s2 s' r
            (fun st' hst' => hT st' (List.mem_cons_of_mem st hst')) hrun'
          refine ⟨hrest.1.trans hstep.1, fun hce => ?_⟩
          have h2s : s2.currentEffect = none := hstep.1.trans hce
          exact (hrest.2 h2s).trans (hstep.2 hce)
        | some e =>
          have hrun' : ((s2, some e) : RState × Option Err) = (s', r) := hrun
          injection hrun' with ha hb
          subst ha
          exact hstep
    | stmt st =>
      cases st with
      | readLog o p =>
        have hrun' : (({ track s o p with
            events := (track s o p).events ++ [Event.readEv o p (heapGet s.heap o p)],
            log := (track s o p).log ++ [heapGet s.heap o p] }, none) :
            RState × Option Err) = (s', r) := hrun
        injection hrun' with h1 h2
        subst h1
        refine ⟨track_currentEffect s o p, fun hce => ?_⟩
        show (track s o p).store = s.store
        rw [track_of_none s o p hce]
      | setProp o p v =>
        have hrun' : exec env n s (RTask.setTask o p v) = (s', r) := hrun
        exact ih (RTask.setTask o p v) s s' r trivial hrun'
      | throwErr code =>
        have hrun' : ((s, some (Err.userErr code)) : RState × Option Err) = (s', r) := hrun
        injection hrun' with h1 h2
        subst h1
        exact ⟨rfl, fun _ => rfl⟩
      | callEffect c => exact hT.elim
    | runComps cs =>
      cases cs with
      | nil =>
        have hrun' : ((s, none) : RState × Option Err) = (s', r) := hrun
        injection hrun' with h1 h2
        subst h1
        exact ⟨rfl, fun _ => rfl⟩
      | cons c rest =>
        rcases h2 : exec env n
            { s with events := s.events ++ [Event.invokeEv c] }
            (RTask.body (env c)) with ⟨s2, r2⟩
        have hstep := ih (RTask.body (env c)) _ s2 r2 (hnr c) h2
        rw [exec, h2] at hrun
        cases r2 with
        | none =>
          have hrun' : exec env n s2 (RTask.runComps rest) = (s', r) := hrun
          have hrest := ih (RTask.runComps rest) s2 s' r trivial hrun'
          refine ⟨hrest.1.trans hstep.1, fun hce => ?_⟩
          have h2s : s2.currentEffect = none := hstep.1.trans hce
          exact (hrest.2 h2s).trans (hstep.2 hce)
        | some e =>
          have hrun' : ((s2, some e) : RState × Option Err) = (s', r) := hrun
          injection hrun' with ha hb
          subst ha
          exact hstep
    | effectCall c => exact hT.elim
    | setTask o p v =>
      have hrun' : exec env n (writeState s o p v) (RTask.trigTask o p) = (s', r) := hrun
      exact ih (RTask.trigTask o p) (writeState s o p v) s' r trivial hrun'
    | trigTask o p =>
      rw [exec] at hrun
      rcases h2 : storeLookup s.store o p with _ | deps
      · rw [h2] at hrun
        have hrun' : ((s, none) : RState × Option Err) = (s', r) := hrun
        injection hrun' with ha hb
        subst ha
        exact ⟨rfl, fun _ => rfl⟩
      · rw [h2] at hrun
        have hrun' : exec env n s (RTask.runComps deps) = (s', r) := hrun
        exact ih (RTask.runComps deps) s s' r trivial hrun'

/-- Claim C2 (amended): for a top-level registration the slot is cleared
when the callback's invocation completes normally; but when the callback
raises an error the clearing is skipped — the error propagates and the
slot still holds the failed callback, so subsequent reads would be
tracked against it.  (Stated for callbacks that perform no nested
registration, which would itself clear the slot.) -/
theorem c2_cleared_iff_normal (env : Env) (fuel : Nat) (s s' : RState) (c : Nat)
    (r : Option Err) (hnr : NoRegEnv env) (hce : s.currentEffect = none)
    (hrun : exec env fuel s (RTask.effectCall c) = (s', r)) :
    (r = none → s'.currentEffect = none) ∧
    (∀ e, r = some (Err.userErr e) → s'.currentEffect = some c) := by
  cases fuel with
  | zero =>
    have hrun' : ((s, some Err.fuelOut) : RState × Option Err) = (s', r) := hrun
    injection hrun' with h1 h2
    subst h1
    constructor
    · intro h
      rw [← h2] at h
      cases h
    · intro e he
      rw [← h2] at he
      cases he
  | succ n =>
    rw [exec, hce] at hrun
    rcases hb : exec env n
        { s with currentEffect := some c,
                 events := s.events ++ [Event.invokeEv c] }
        (RTask.body (env c)) with ⟨s2, r2⟩
    have hslot := (exec_noReg_invariant env hnr n (RTask.body (env c)) _ s2 r2
      (hnr c) hb).1
    rw [hb] at hrun
    cases r2 with
    | none =>
      have hrun' : (({ s2 with currentEffect := none }, none) :
          RState × Option Err) = (s', r) := hrun
      injection hrun' with h1 h2
      subst h1
      constructor
      · intro _
        rfl
      · intro e he
        rw [← h2] at he
        cases he
    | some e2 =>
      have hrun' : ((s2, some e2) : RState × Option Err) = (s', r) := hrun
      injection hrun' with h1 h2
      subst h1
      constructor
      · intro h
        rw [← h2] at h
        cases h
      · intro e _
        exact hslot

theorem c2_witness :
    initState.currentEffect = none ∧
    ((exec envThrow 10 initState (RTask.effectCall 0)).snd = none →
      (exec envThrow 10 initState (RTask.effectCall 0)).fst.currentEffect = none) ∧
    (∀ e, (exec envThrow 10 initState (RTask.effectCall 0)).snd = some (Err.userErr e) →
      (exec envThrow 10 initState (RTask.effectCall 0)).fst.currentEffect = some 0) := by
  refine ⟨rfl, ?_⟩
  exact c2_cleared_iff_normal envThrow 10 initState _ 0 _ noRegEnv_envThrow rfl rfl

/-- Claim C10 fails on the code as universally stated: a computation
re-run by a write from outside any registration may itself call the
registration entry point; that nested call is a fresh registration
(the slot is empty during the re-run), so the dependency store does
change during the re-run.  Here callback `0`, recorded for `(0, 0)`,
registers callback `1` when re-run, and the write to `(0, 0)` grows the
store with an entry for `(0, 5)`. -/
theorem c10_counterexample :
    sC10.currentEffect = none ∧
    (exec env10 30 sC10 (RTask.setTask 0 0 (Value.num 1))).snd = none ∧
    (exec env10 30 sC10 (RTask.setTask 0 0 (Value.num 1))).fst.store ≠ sC10.store :=
  ⟨rfl, rfl, by decide⟩

/-- Claim C10 (amended): for computations that perform no registration
call of their own, a write performed with an empty tracking slot leaves
the slot empty and the dependency store completely unchanged — re-runs
record no new dependencies. -/
theorem c10_rerun_no_tracking (env : Env) (fuel : Nat) (s s' : RState) (o p : Nat)
    (v : Value) (r : Option Err)
    (hnr : NoRegEnv env) (hce : s.currentEffect = none)
    (hrun : exec env fuel s (RTask.setTask o p v) = (s', r)) :
    s'.store = s.store ∧ s'.currentEffect = none := by
  have h := exec_noReg_invariant env hnr fuel (RTask.setTask o p v) s s' r trivial hrun
  exact ⟨h.2 hce, h.1.trans hce⟩

theorem c10_witness :
    sC10.currentEffect = none ∧
    (exec envR 30 sC10 (RTask.setTask 0 0 (Value.num 1))).fst.store = sC10.store ∧
    (exec envR 30 sC10 (RTask.setTask 0 0 (Value.num 1))).fst.currentEffect = none := by
  refine ⟨rfl, ?_⟩
  exact c10_rerun_no_tracking envR 30 sC10 _ 0 0 (Value.num 1) _ noRegEnv_envR rfl rfl

/-- Running a body consisting only of reads (with an empty tracking
slot) changes neither the heap, nor the store, nor the slot; it can fail
only by fuel exhaustion, and every event it appends is a read reporting
the value the unchanged heap holds. -/
theorem exec_body_readonly (env : Env) :
    ∀ fuel (l : List Stmt) (s s' : RState) (r : Option Err),
      (∀ st ∈ l, IsReadLog st) → s.currentEffect = none →
      exec env fuel s (RTask.body l) = (s', r) →
      s'.heap = s.heap ∧ s'.store = s.store ∧ s'.currentEffect = none ∧
      (r = none ∨ r = some Err.fuelOut) ∧
      ∃ delta, s'.events = s.events ++ delta ∧
        ∀ e ∈ delta, ∃ o' p', e = Event.readEv o' p' (heapGet s.heap o' p') := by
  intro fuel
  induction fuel with
  | zero =>
    intro l s s' r _ hce hrun
    have hrun' : ((s, some Err.fuelOut) : RState × Option Err) = (s', r) := hrun
    injection hrun' with h1 h2
    subst h1
    exact ⟨rfl, rfl, hce, Or.inr h2.symm, [], by simp, by simp⟩
  | succ n ih =>
    intro l s s' r hro hce hrun
    cases l with
    | nil =>
      have hrun' : ((s, none) : RState × Option Err) = (s', r) := hrun
      injection hrun' with h1 h2
      subst h1
      exact ⟨rfl, rfl, hce, Or.inl h2.symm, [], by simp, by simp⟩
    | cons st rest =>
      have hst : IsReadLog st := hro st (List.mem_cons_self st rest)
      cases st with
      | setProp o p v => exact hst.elim
      | throwErr code => exact hst.elim
      | callEffect c => exact hst.elim
      | readLog o p =>
        rw [exec] at hrun
        cases n with
        | zero =>
          have hz : exec env 0 s (RTask.stmt (Stmt.readLog o p)) =
              (s, some Err.fuelOut) := rfl
          rw [hz] at hrun
          have hrun' : ((s, some Err.fuelOut) : RState × Option Err) = (s', r) := hrun
          injection hrun' with h1 h2
          subst h1
          exact ⟨rfl, rfl, hce, Or.inr h2.symm, [], by simp, by simp⟩
        | succ m =>
          have htr := track_of_none s o p hce
          have hview : exec env (m + 1) s (RTask.stmt (Stmt.readLog o p)) =
              ({ s with
                  events := s.events ++ [Event.readEv o p (heapGet s.heap o p)],
                  log := s.log ++ [heapGet s.heap o p] }, none) := by
            rw [exec, htr]
          rw [hview] at hrun
          have hrun' : exec env (m + 1)
              { s with
                  events := s.events ++ [Event.readEv o p (heapGet s.heap o p)],
                  log := s.log ++ [heapGet s.heap o p] }
              (RTask.body rest) = (s', r) := hrun
          have hrest := ih rest
            { s with
                events := s.events ++ [Event.readEv o p (heapGet s.heap o p)],
                log := s.log ++ [heapGet s.heap o p] }
            s' r
            (fun st' hst' => hro st' (List.mem_cons_of_mem (Stmt.readLog o p) hst'))
            hce hrun'
          obtain ⟨hh, hs, hc, hr, delta, hev, hmem⟩ := hrest
          refine ⟨hh, hs, hc, hr,
            Event.readEv o p (heapGet s.heap o p) :: delta, ?_, ?_⟩
          · rw [hev]
            simp
          · intro e he
            rcases List.mem_cons.mp he with rfl | he'
            · exact ⟨o, p, rfl⟩
            · exact hmem e he'

/-- The `trigger` iteration over read-only callbacks (slot empty): the
heap, store and slot are unchanged, failure can only be fuel exhaustion,
the trace grows by exactly one invocation event per callback in order
(interspersed with reads), and every read reports the value the
unchanged heap held on entry. -/
theorem exec_runComps_readonly (env : Env) :
    ∀ fuel (cs : List Nat) (s s' : RState) (r : Option Err),
      (∀ c ∈ cs, ∀ st ∈ env c, IsReadLog st) →
      s.currentEffect = none →
      exec env fuel s (RTask.runComps cs) = (s', r) →
      s'.heap = s.heap ∧ s'.store = s.store ∧ s'.currentEffect = none ∧
      (r = none ∨ r = some Err.fuelOut) ∧
      ∃ delta, s'.events = s.events ++ delta ∧
        (r = none → delta.filter eIsInvoke = cs.map Event.invokeEv) ∧
        (∀ e ∈ delta, (∃ c ∈ cs, e = Event.invokeEv c) ∨
          ∃ o' p', e = Event.readEv o' p' (heapGet s.heap o' p')) := by
  intro fuel
  induction fuel with
  | zero =>
    intro cs s s' r _ hce hrun
    have hrun' : ((s, some Err.fuelOut) : RState × Option Err) = (s', r) := hrun
    injection hrun' with h1 h2
    subst h1
    subst h2
    exact ⟨rfl, rfl, hce, Or.inr rfl, [], by simp, by simp, by simp⟩
  | succ n ih =>
    intro cs s s' r hro hce hrun
    cases cs with
    | nil =>
      have hrun' : ((s, none) : RState × Option Err) = (s', r) := hrun
      injection hrun' with h1 h2
      subst h1
      subst h2
      exact ⟨rfl, rfl, hce, Or.inl rfl, [], by simp, by simp, by simp⟩
    | cons c rest =>
      rw [exec] at hrun
      rcases hb : exec env n
          { s with events := s.events ++ [Event.invokeEv c] }
          (RTask.body (env c)) with ⟨s2, r2⟩
      have hbody := exec_body_readonly env n (env c)
        { s with events := s.events ++ [Event.invokeEv c] } s2 r2
        (hro c (List.mem_cons_self c rest)) hce hb
      obtain ⟨hbh, hbs, hbc, hbr, db, hbev, hbmem⟩ := hbody
      rw [hb] at hrun
      cases r2 with
      | none =>
        have hrun' : exec env n s2 (RTask.runComps rest) = (s', r) := hrun
        have hrest := ih rest s2 s' r
          (fun c' hc' => hro c' (List.mem_cons_of_mem c hc')) hbc hrun'
        obtain ⟨hh, hs, hc, hr, dr, hev, hfil, hmem⟩ := hrest
        refine ⟨hh.trans hbh, hs.trans hbs, hc, hr,
          Event.invokeEv c :: (db ++ dr), ?_, ?_, ?_⟩
        · rw [hev, hbev]
          simp
        · intro hrn
          have hfil' := hfil hrn
          have hdb : db.filter eIsInvoke = [] := by
            refine List.filter_eq_nil_iff.mpr ?_
            intro e he
            obtain ⟨o', p', rfl⟩ := hbmem e he
            simp [eIsInvoke]
          simp only [List.filter_cons, List.filter_append, hdb, hfil',
            List.map_cons, eIsInvoke, List.nil_append, if_true]
        · intro e he
          rcases List.mem_cons.mp he with rfl | he'
          · exact Or.inl ⟨c, List.mem_cons_self c rest, rfl⟩
          · rcases List.mem_append.mp he' with hdb' | hdr'
            · obtain ⟨o', p', hre⟩ := hbmem e hdb'
              exact Or.inr ⟨o', p', hre⟩
            · rcases hmem e hdr' with ⟨c', hc', hre⟩ | ⟨o', p', hre⟩
              · exact Or.inl ⟨c', List.mem_cons_of_mem c hc', hre⟩
              · rw [hbh] at hre
                exact Or.inr ⟨o', p', hre⟩
      | some e2 =>
        have hrun' : ((s2, some e2) : RState × Option Err) = (s', r) := hrun
        injection hrun' with h1 h2
        subst h1
        subst h2
        have he2 : e2 = Err.fuelOut := by
          rcases hbr with h | h
          · exact Option.noConfusion h
          · exact Option.some.inj h
        refine ⟨hbh, hbs, hbc, Or.inr (by rw [he2]),
          Event.invokeEv c :: db, ?_, ?_, ?_⟩
        · rw [hbev]
          simp
        · intro hrn
          cases hrn
        · intro e he
          rcases List.mem_cons.mp he with rfl | he'
          · exact Or.inl ⟨c, List.mem_cons_self c rest, rfl⟩
          · obtain ⟨o', p', hre⟩ := hbmem e he'
            exact Or.inr ⟨o', p', hre⟩

/-- Unfolding the proxy `set` handler when deps exist for `(o, p)` and
fuel did not run out: it is the assignment into the underlying object
(`writeState`) followed by `trigger`'s iteration over the recorded
callbacks. -/
theorem exec_setTask_steps (env : Env) (fuel : Nat) (s s' : RState) (o p : Nat)
    (v : Value) (deps : Deps) (r : Option Err)
    (hdeps : storeLookup s.store o p = some deps)
    (hrun : exec env fuel s (RTask.setTask o p v) = (s', r))
    (hnf : r ≠ some Err.fuelOut) :
    ∃ m, exec env m (writeState s o p v) (RTask.runComps deps) = (s', r) := by
  cases fuel with
  | zero =>
    have hrun' : ((s, some Err.fuelOut) : RState × Option Err) = (s', r) := hrun
    injection hrun' with h1 h2
    exact absurd h2.symm hnf
  | succ n =>
    have hrun1 : exec env n (writeState s o p v) (RTask.trigTask o p) = (s', r) := hrun
    cases n with
    | zero =>
      have hrun2 : ((writeState s o p v, some Err.fuelOut) :
          RState × Option Err) = (s', r) := hrun1
      injection hrun2 with h1 h2
      exact absurd h2.symm hnf
    | succ m =>
      rw [exec] at hrun1
      have hlook : storeLookup (writeState s o p v).store o p = some deps := hdeps
      rw [hlook] at hrun1
      exact ⟨m, hrun1⟩

/-- Counting occurrences through the invocation-trace equation: if the
invocation events of `delta` are exactly `cs.map Event.invokeEv`, then
each callback id occurs as an invocation in `delta` exactly as often as
it occurs in `cs`. -/
theorem filter_invoke_length (delta : List Event) :
    ∀ cs : List Nat, delta.filter eIsInvoke = cs.map Event.invokeEv →
      ∀ c : Nat, (delta.filter (fun e => decide (e = Event.invokeEv c))).length =
        (cs.filter (fun d => decide (d = c))).length := by
  induction delta with
  | nil =>
    intro cs hfil c
    have hcs : cs = [] := List.map_eq_nil_iff.mp hfil.symm
    subst hcs
    rfl
  | cons e t ih =>
    intro cs hfil c
    cases he : eIsInvoke e with
    | false =>
      rw [List.filter_cons_of_neg (by simp [he])] at hfil
      have hne : e ≠ Event.invokeEv c := by
        intro hcon
        rw [hcon] at he
        cases he
      rw [List.filter_cons_of_neg (by simp [hne])]
      exact ih cs hfil c
    | true =>
      cases e with
      | writeEv o' p' v' => cases he
      | readEv o' p' v' => cases he
      | invokeEv d =>
        rw [List.filter_cons_of_pos (by simp [eIsInvoke])] at hfil
        cases cs with
        | nil => exact absurd hfil (by simp)
        | cons c0 cs' =>
          rw [List.map_cons] at hfil
          have hd : d = c0 := by
            have := List.head_eq_of_cons_eq hfil
            injection this
          have ht : t.filter eIsInvoke = cs'.map Event.invokeEv :=
            List.tail_eq_of_cons_eq hfil
          subst hd
          by_cases hdc : d = c
          · subst hdc
            rw [List.filter_cons_of_pos (by simp),
              List.filter_cons_of_pos (by simp)]
            simp only [List.length_cons]
            rw [ih cs' ht d]
          · rw [List.filter_cons_of_neg (by simp [hdc]),
              List.filter_cons_of_neg (by simp [hdc])]
            exact ih cs' ht c

theorem filter_self_nil_of_not_mem (cs : List Nat) (c : Nat) (hc : c ∉ cs) :
    cs.filter (fun d => decide (d = c)) = [] := by
  refine List.filter_eq_nil_iff.mpr ?_
  intro d hd
  simp only [decide_eq_true_eq]
  intro hdc
  exact hc (hdc ▸ hd)

theorem filter_self_length_of_nodup (cs : List Nat) (c : Nat)
    (hnd : cs.Nodup) (hc : c ∈ cs) :
    (cs.filter (fun d => decide (d = c))).length = 1 := by
  induction cs with
  | nil => cases hc
  | cons d t ih =>
    rw [List.nodup_cons] at hnd
    rcases List.mem_cons.mp hc with rfl | hct
    · rw [List.filter_cons_of_pos (by simp)]
      rw [filter_self_nil_of_not_mem t c hnd.1]
      rfl
    · have hdc : d ≠ c := by
        intro hcon
        exact hnd.1 (hcon ▸ hct)
      rw [List.filter_cons_of_neg (by simp [hdc])]
      exact ih hnd.2 hct

/-- A state whose store has callback `0` recorded for `(0, 0)`, the
heap holding `count = 0`. -/
def sW1 : RState :=
  { heap := [((0, 0), Value.num 0)], store := [(0, [(0, [0])])],
    currentEffect := none, events := [], log := [] }

/-- Claim C1: a write of `v` to `(o, p)` through the handle first
assigns `v` into the underlying object and only then invokes the
recorded computations: the trace begins with the write event, the final
heap holds `v` at `(o, p)`, each recorded computation is re-invoked
exactly once within the write call, and every read of `(o, p)` any of
them performs observes the new value `v`, never the prior one.  (Stated
for registered computations that only read, the write performed outside
any registration; the run is assumed to complete, which rules out the
model's fuel exhaustion.) -/
theorem c1_write_assigns_then_triggers
    (env : Env) (fuel : Nat) (s s' : RState) (o p : Nat) (v : Value) (deps : Deps)
    (hro : ReadOnlyEnv env) (hce : s.currentEffect = none)
    (hdeps : storeLookup s.store o p = some deps) (hnd : deps.Nodup)
    (hrun : exec env fuel s (RTask.setTask o p v) = (s', none)) :
    heapGet s'.heap o p = v ∧
    ∃ delta, s'.events = s.events ++ Event.writeEv o p v :: delta ∧
      delta.filter eIsInvoke = deps.map Event.invokeEv ∧
      (∀ c ∈ deps, (delta.filter (fun e => decide (e = Event.invokeEv c))).length = 1) ∧
      (∀ u, Event.readEv o p u ∈ delta → u = v) := by
  obtain ⟨m, hrun2⟩ := exec_setTask_steps env fuel s s' o p v deps none hdeps hrun
    (by simp)
  have hB := exec_runComps_readonly env m deps (writeState s o p v) s' none
    (fun c _ => hro c) hce hrun2
  obtain ⟨hh, hs, hc, _, delta, hev, hfil, hmem⟩ := hB
  have hfil' := hfil rfl
  constructor
  · rw [hh]
    exact heapGet_heapSet_self s.heap o p v
  · refine ⟨delta, ?_, hfil', ?_, ?_⟩
    · rw [hev]
      show s.events ++ [Event.writeEv o p v] ++ delta =
        s.events ++ Event.writeEv o p v :: delta
      simp
    · intro c hcd
      rw [filter_invoke_length delta deps hfil' c]
      exact filter_self_length_of_nodup deps c hnd hcd
    · intro u hin
      rcases hmem (Event.readEv o p u) hin with ⟨c', _, hre⟩ | ⟨o', p', hre⟩
      · cases hre
      · injection hre with h1 h2 h3
        subst h1
        subst h2
        rw [h3]
        exact heapGet_heapSet_self s.heap o p v

theorem c1_witness :
    storeLookup sW1.store 0 0 = some [0] ∧
    (heapGet (exec envC9 30 sW1 (RTask.setTask 0 0 (Value.num 7))).fst.heap 0 0 =
        Value.num 7 ∧
      ∃ delta, (exec envC9 30 sW1 (RTask.setTask 0 0 (Value.num 7))).fst.events =
          sW1.events ++ Event.writeEv 0 0 (Value.num 7) :: delta ∧
        delta.filter eIsInvoke = [0].map Event.invokeEv ∧
        (∀ c ∈ ([0] : Deps),
          (delta.filter (fun e => decide (e = Event.invokeEv c))).length = 1) ∧
        (∀ u, Event.readEv 0 0 u ∈ delta → u = Value.num 7)) := by
  refine ⟨rfl, ?_⟩
  exact c1_write_assigns_then_triggers envC9 30 sW1 _ 0 0 (Value.num 7) [0]
    readOnlyEnv_envC9 rfl rfl (by decide) rfl

/-- Claim C6: dependencies are keyed per property.  Writing property
`pB` of object `o` invokes the computations recorded for `(o, pB)` —
in particular `cB` — and never invokes a computation `cA` that is not
recorded there (such as one registered reading only another property). -/
theorem c6_per_property_keying
    (env : Env) (fuel : Nat) (s s' : RState) (o pB cA cB : Nat) (v : Value)
    (depsB : Deps)
    (hro : ReadOnlyEnv env) (hce : s.currentEffect = none)
    (hdepsB : storeLookup s.store o pB = some depsB)
    (hmemB : cB ∈ depsB) (hnotA : cA ∉ depsB)
    (hrun : exec env fuel s (RTask.setTask o pB v) = (s', none)) :
    ∃ delta, s'.events = s.events ++ Event.writeEv o pB v :: delta ∧
      Event.invokeEv cB ∈ delta ∧ Event.invokeEv cA ∉ delta := by
  obtain ⟨m, hrun2⟩ := exec_setTask_steps env fuel s s' o pB v depsB none hdepsB hrun
    (by simp)
  have hB := exec_runComps_readonly env m depsB (writeState s o pB v) s' none
    (fun c _ => hro c) hce hrun2
  obtain ⟨hh, hs, hc, _, delta, hev, hfil, hmem'⟩ := hB
  refine ⟨delta, ?_, ?_, ?_⟩
  · rw [hev]
    show s.events ++ [Event.writeEv o pB v] ++ delta =
      s.events ++ Event.writeEv o pB v :: delta
    simp
  · have hmap : Event.invokeEv cB ∈ delta.filter eIsInvoke := by
      rw [hfil rfl]
      exact List.mem_map_of_mem Event.invokeEv hmemB
    exact List.mem_of_mem_filter hmap
  · intro hcon
    rcases hmem' (Event.invokeEv cA) hcon with ⟨c', hc', hre⟩ | ⟨o', p', hre⟩
    · injection hre with h
      subst h
      exact hnotA hc'
    · cases hre

/-- The state after registering `envR`'s two computations (callback `0`
reading `count`, callback `1` reading `show`) from `s00`. -/
def sRegC6 : RState :=
  (exec envR 40 s00 (RTask.body [Stmt.callEffect 0, Stmt.callEffect 1])).fst

theorem c6_witness :
    storeLookup sRegC6.store 0 1 = some [1] ∧
    ∃ delta, (exec envR 20 sRegC6 (RTask.setTask 0 1 (Value.boolv true))).fst.events =
        sRegC6.events ++ Event.writeEv 0 1 (Value.boolv true) :: delta ∧
      Event.invokeEv 1 ∈ delta ∧ Event.invokeEv 0 ∉ delta := by
  refine ⟨rfl, ?_⟩
  exact c6_per_property_keying envR 20 sRegC6 _ 0 1 0 1 (Value.boolv true) [1]
    readOnlyEnv_envR rfl rfl (by decide) (by decide) rfl

theorem depsAdd_mem (l : Deps) (c : Nat) : c ∈ depsAdd l c := by
  by_cases h : c ∈ l <;> simp [depsAdd, h]

theorem depsAdd_of_mem (l : Deps) (c : Nat) (h : c ∈ l) : depsAdd l c = l := by
  simp [depsAdd, h]

theorem depsAdd_of_not_mem (l : Deps) (c : Nat) (h : c ∉ l) :
    depsAdd l c = l ++ [c] := by
  simp [depsAdd, h]

/-- Adding is idempotent: re-adding a member of a `Set` changes nothing. -/
theorem depsAdd_idem (l : Deps) (c : Nat) :
    depsAdd (depsAdd l c) c = depsAdd l c :=
  depsAdd_of_mem (depsAdd l c) c (depsAdd_mem l c)

theorem propAdd_idem (pm : PropMap) (p c : Nat) :
    propAdd (propAdd pm p c) p c = propAdd pm p c := by
  induction pm with
  | nil => simp [propAdd, depsAdd_idem]
  | cons hd t ih =>
    rcases hd with ⟨q, l⟩
    by_cases hq : q = p
    · simp [propAdd, hq, depsAdd_idem]
    · simp [propAdd, hq, ih]

/-- Recording is idempotent for the same (object, property, computation)
triple. -/
theorem storeAdd_idem (st : Store) (o p c : Nat) :
    storeAdd (storeAdd st o p c) o p c = storeAdd st o p c := by
  induction st with
  | nil => simp [storeAdd, propAdd_idem]
  | cons hd t ih =>
    rcases hd with ⟨m, pm⟩
    by_cases hm : m = o
    · simp [storeAdd, hm, propAdd_idem]
    · simp [storeAdd, hm, ih]

theorem propLookup_propAdd (pm : PropMap) (p c : Nat) :
    propLookup (propAdd pm p c) p = some (depsAdd ((propLookup pm p).getD []) c) := by
  induction pm with
  | nil => simp [propAdd, propLookup]
  | cons hd t ih =>
    rcases hd with ⟨q, l⟩
    by_cases hq : q = p
    · simp [propAdd, propLookup, hq]
    · simp [propAdd, propLookup, hq, ih]

/-- What `record` leaves for the recorded pair: the previous set with
the computation `Set.add`ed. -/
theorem storeLookup_storeAdd (st : Store) (o p c : Nat) :
    storeLookup (storeAdd st o p c) o p = some (depsAdd (depsOf st o p) c) := by
  induction st with
  | nil => simp [storeAdd, storeLookup, depsOf, propLookup_propAdd, propLookup]
  | cons hd t ih =>
    rcases hd with ⟨m, pm⟩
    by_cases hm : m = o
    · simp [storeAdd, storeLookup, hm, depsOf, propLookup_propAdd]
    · simp [storeAdd, storeLookup, hm, depsOf, ih]

/-- The state after registering the same callback `0` twice from `s00`
(two top-level `effect(cb)` calls with the same callback reference,
each reading `(0, 0)`). -/
def sRegC5 : RState :=
  (exec envR 40 s00 (RTask.body [Stmt.callEffect 0, Stmt.callEffect 0])).fst

/-- Claim C5: recording a dependency is idempotent for the same
(object, property, computation) triple: adding the same computation a
second time leaves the store exactly as adding it once, and a
subsequent write to the property invokes that computation exactly once,
not twice. -/
theorem c5_record_idempotent
    (env : Env) (fuel : Nat) (s s' : RState) (st0 : Store) (o p c : Nat) (v : Value)
    (hro : ReadOnlyEnv env) (hce : s.currentEffect = none)
    (hfresh : c ∉ depsOf st0 o p)
    (hstore : s.store = storeAdd (storeAdd st0 o p c) o p c)
    (hrun : exec env fuel s (RTask.setTask o p v) = (s', none)) :
    storeAdd (storeAdd st0 o p c) o p c = storeAdd st0 o p c ∧
    ∃ delta, s'.events = s.events ++ Event.writeEv o p v :: delta ∧
      (delta.filter (fun e => decide (e = Event.invokeEv c))).length = 1 := by
  have hidem := storeAdd_idem st0 o p c
  have hdeps : storeLookup s.store o p = some (depsOf st0 o p ++ [c]) := by
    rw [hstore, hidem, storeLookup_storeAdd, depsAdd_of_not_mem _ _ hfresh]
  obtain ⟨m, hrun2⟩ := exec_setTask_steps env fuel s s' o p v _ none hdeps hrun
    (by simp)
  have hB := exec_runComps_readonly env m _ (writeState s o p v) s' none
    (fun c' _ => hro c') hce hrun2
  obtain ⟨_, _, _, _, delta, hev, hfil, _⟩ := hB
  refine ⟨hidem, delta, ?_, ?_⟩
  · rw [hev]
    show s.events ++ [Event.writeEv o p v] ++ delta =
      s.events ++ Event.writeEv o p v :: delta
    simp
  · rw [filter_invoke_length delta _ (hfil rfl) c]
    rw [List.filter_append, filter_self_nil_of_not_mem _ c hfresh]
    simp

theorem c5_witness :
    (0 ∉ depsOf [] 0 0) ∧
    sRegC5.store = storeAdd (storeAdd [] 0 0 0) 0 0 0 ∧
    (storeAdd (storeAdd ([] : Store) 0 0 0) 0 0 0 = storeAdd [] 0 0 0 ∧
      ∃ delta, (exec envR 25 sRegC5 (RTask.setTask 0 0 (Value.num 9))).fst.events =
          sRegC5.events ++ Event.writeEv 0 0 (Value.num 9) :: delta ∧
        (delta.filter (fun e => decide (e = Event.invokeEv 0))).length = 1) := by
  refine ⟨by decide, rfl, ?_⟩
  exact c5_record_idempotent envR 25 sRegC5 _ [] 0 0 0 (Value.num 9)
    readOnlyEnv_envR rfl (by decide) rfl rfl

/-- The `trigger` iteration when the recorded callbacks are read-only ones
followed by a throwing callback: unless fuel runs out, the throw
propagates out of the iteration, the callbacks before the throwing one
and the throwing one itself are invoked in order, and nothing after it
is invoked. -/
theorem exec_runComps_throws (env : Env) (c0 e0 : Nat) (ds2 : List Nat)
    (hc0 : env c0 = [Stmt.throwErr e0]) :
    ∀ fuel (ds1 : List Nat) (s s' : RState) (r : Option Err),
      (∀ d ∈ ds1, ∀ st ∈ env d, IsReadLog st) →
      s.currentEffect = none →
      exec env fuel s (RTask.runComps (ds1 ++ c0 :: ds2)) = (s', r) →
      r ≠ some Err.fuelOut →
      r = some (Err.userErr e0) ∧
      ∃ delta, s'.events = s.events ++ delta ∧
        delta.filter eIsInvoke = (ds1 ++ [c0]).map Event.invokeEv := by
  intro fuel
  induction fuel with
  | zero =>
    intro ds1 s s' r _ _ hrun hnf
    have hrun' : ((s, some Err.fuelOut) : RState × Option Err) = (s', r) := hrun
    injection hrun' with h1 h2
    exact absurd h2.symm hnf
  | succ n ih =>
    intro ds1 s s' r hro hce hrun hnf
    cases ds1 with
    | nil =>
      rw [List.nil_append] at hrun
      rw [exec, hc0] at hrun
      cases n with
      | zero =>
        have hz : exec env 0
            { s with events := s.events ++ [Event.invokeEv c0] }
            (RTask.body [Stmt.throwErr e0]) =
            ({ s with events := s.events ++ [Event.invokeEv c0] },
              some Err.fuelOut) := rfl
        rw [hz] at hrun
        have hrun' : (({ s with events := s.events ++ [Event.invokeEv c0] },
            some Err.fuelOut) : RState × Option Err) = (s', r) := hrun
        injection hrun' with h1 h2
        exact absurd h2.symm hnf
      | succ m =>
        cases m with
        | zero =>
          have hz : exec env 1
              { s with events := s.events ++ [Event.invokeEv c0] }
              (RTask.body [Stmt.throwErr e0]) =
              ({ s with events := s.events ++ [Event.invokeEv c0] },
                some Err.fuelOut) := rfl
          rw [hz] at hrun
          have hrun' : (({ s with events := s.events ++ [Event.invokeEv c0] },
              some Err.fuelOut) : RState × Option Err) = (s', r) := hrun
          injection hrun' with h1 h2
          exact absurd h2.symm hnf
        | succ k =>
          have hv : exec env (k + 1 + 1)
              { s with events := s.events ++ [Event.invokeEv c0] }
              (RTask.body [Stmt.throwErr e0]) =
              ({ s with events := s.events ++ [Event.invokeEv c0] },
                some (Err.userErr e0)) := rfl
          rw [hv] at hrun
          have hrun' : (({ s with events := s.events ++ [Event.invokeEv c0] },
              some (Err.userErr e0)) : RState × Option Err) = (s', r) := hrun
          injection hrun' with h1 h2
          subst h1
          subst h2
          refine ⟨rfl, [Event.invokeEv c0], rfl, ?_⟩
          simp [eIsInvoke]
    | cons d rest =>
      rw [List.cons_append] at hrun
      rw [exec] at hrun
      rcases hb : exec env n
          { s with events := s.events ++ [Event.invokeEv d] }
          (RTask.body (env d)) with ⟨s2, r2⟩
      have hbody := exec_body_readonly env n (env d)
        { s with events := s.events ++ [Event.invokeEv d] } s2 r2
        (hro d (List.mem_cons_self d rest)) hce hb
      obtain ⟨hbh, hbs, hbc, hbr, db, hbev, hbmem⟩ := hbody
      rw [hb] at hrun
      cases r2 with
      | none =>
        have hrun' : exec env n s2 (RTask.runComps (rest ++ c0 :: ds2)) = (s', r) := hrun
        obtain ⟨hr, dr, hev, hfil⟩ := ih rest s2 s' r
          (fun d' hd' => hro d' (List.mem_cons_of_mem d hd')) hbc hrun' hnf
        refine ⟨hr, Event.invokeEv d :: (db ++ dr), ?_, ?_⟩
        · rw [hev, hbev]
          simp
        · have hdb : db.filter eIsInvoke = [] := by
            refine List.filter_eq_nil_iff.mpr ?_
            intro e he
            obtain ⟨o', p', rfl⟩ := hbmem e he
            simp [eIsInvoke]
          simp only [List.filter_cons, List.filter_append, hdb, hfil,
            List.cons_append, List.map_cons, eIsInvoke, List.nil_append, if_true]
      | some e2 =>
        have he2 : e2 = Err.fuelOut := by
          rcases hbr with h | h
          · exact Option.noConfusion h
          · exact Option.some.inj h
        have hrun' : ((s2, some e2) : RState × Option Err) = (s', r) := hrun
        injection hrun' with h1 h2
        rw [he2] at h2
        exact absurd h2.symm hnf

/-- Claim C8: when a computation invoked by a write throws, the failure
propagates synchronously out of the triggering write call (the core
swallows nothing: the write's outcome is exactly the thrown error), and
the computations for the same property that had not yet been invoked in
that trigger iteration are never run — the invocation events are exactly
the preceding computations and the throwing one, in order.  (The
preceding computations are assumed read-only; the run is assumed not to
exhaust the model's fuel.) -/
theorem c8_error_propagates
    (env : Env) (fuel : Nat) (s s' : RState) (o p : Nat) (v : Value)
    (ds1 ds2 : List Nat) (c0 e0 : Nat) (r : Option Err)
    (hro1 : ∀ d ∈ ds1, ∀ st ∈ env d, IsReadLog st)
    (hc0 : env c0 = [Stmt.throwErr e0])
    (hce : s.currentEffect = none)
    (hdeps : storeLookup s.store o p = some (ds1 ++ c0 :: ds2))
    (hrun : exec env fuel s (RTask.setTask o p v) = (s', r))
    (hnf : r ≠ some Err.fuelOut) :
    r = some (Err.userErr e0) ∧
    ∃ delta, s'.events = s.events ++ Event.writeEv o p v :: delta ∧
      delta.filter eIsInvoke = (ds1 ++ [c0]).map Event.invokeEv ∧
      (∀ d : Nat, Event.invokeEv d ∈ delta → d ∈ ds1 ∨ d = c0) := by
  obtain ⟨m, hrun2⟩ := exec_setTask_steps env fuel s s' o p v _ r hdeps hrun hnf
  obtain ⟨hr, delta, hev, hfil⟩ := exec_runComps_throws env c0 e0 ds2 hc0 m ds1
    (writeState s o p v) s' r hro1 hce hrun2 hnf
  refine ⟨hr, delta, ?_, hfil, ?_⟩
  · rw [hev]
    show s.events ++ [Event.writeEv o p v] ++ delta =
      s.events ++ Event.writeEv o p v :: delta
    simp
  · intro d hd
    have hmem : Event.invokeEv d ∈ delta.filter eIsInvoke :=
      List.mem_filter.mpr ⟨hd, by simp [eIsInvoke]⟩
    rw [hfil] at hmem
    obtain ⟨d', hd', heq⟩ := List.mem_map.mp hmem
    injection heq with h
    subst h
    rcases List.mem_append.mp hd' with h1 | h1
    · exact Or.inl h1
    · exact Or.inr (List.mem_singleton.mp h1)

theorem c8_witness :
    envT 2 = [Stmt.throwErr 7] ∧
    storeLookup sC8.store 0 0 = some ([0] ++ 2 :: [3]) ∧
    ((exec envT 30 sC8 (RTask.setTask 0 0 (Value.num 5))).snd =
        some (Err.userErr 7) ∧
      ∃ delta, (exec envT 30 sC8 (RTask.setTask 0 0 (Value.num 5))).fst.events =
          sC8.events ++ Event.writeEv 0 0 (Value.num 5) :: delta ∧
        delta.filter eIsInvoke = ([0] ++ [2]).map Event.invokeEv ∧
        (∀ d : Nat, Event.invokeEv d ∈ delta → d ∈ ([0] : List Nat) ∨ d = 2)) := by
  refine ⟨rfl, rfl, ?_⟩
  refine c8_error_propagates envT 30 sC8 _ 0 0 (Value.num 5) [0] [3] 2 7 _
    ?_ rfl rfl rfl rfl (by decide)
  intro d hd st hst
  have hd0 : d = 0 := by simpa using hd
  subst hd0
  simp [envT] at hst
  simp [hst, IsReadLog]
